import Mathlib

/-!
Shallow embedding of the EVT action-application layer
(`src/libraries/chain/contracts/evt_contract.cpp`) together with proofs
about its handlers.

Conventions of the embedding:
* names (domain, token, account, permission names) are `String`;
* group ids are `Nat`, with `0` standing for the empty id (the owner
  pseudo-group), since the source's 128-bit group id type with its
  `empty()` test is not part of the sources;
* public keys are `Nat` (an opaque totally ordered value);
* weights and thresholds are `Nat`; the weight accumulator of the
  validation primitives is a `uint32_t` in the source, hence additions
  into it are taken modulo `2 ^ 32`;
* balances are `Int`, with the representable range of the source's
  balance type taken to be signed 64-bit;
* each handler is a function `ApplyContext → action → LedgerState →
  Option Unit × LedgerState`: `none` means the handler raised
  `action_validate_exception`, and the returned state reflects every
  store mutation performed up to that point, so "no write before a
  failed check" is a provable property rather than one true by
  construction.
-/

namespace Evt

/-- Modelled from the spec: a permission entry `(group_id, weight)` (§3).
The `weight` is an unsigned integer whose width the sources do not fix. -/
structure group_weight where
  id : Nat
  weight : Nat
deriving DecidableEq, Repr

/-- Modelled from the spec: a permission definition `{name, threshold,
groups}` (§3), `permission_def` in the source. -/
structure permission_def where
  name : String
  threshold : Nat
  groups : List group_weight
deriving DecidableEq, Repr

/-- Modelled from the spec: a group member entry `(key, weight)` (§3),
`key_weight` in the source. -/
structure key_weight where
  key : Nat
  weight : Nat
deriving DecidableEq, Repr

/-- Modelled from the spec: a group definition `{id, key, threshold,
keys}` (§3), `group_def` in the source. -/
structure group_def where
  id : Nat
  key : Nat
  threshold : Nat
  keys : List key_weight
deriving DecidableEq, Repr

/-- Modelled from the spec: a domain record (§3), `domain_def` in the
source. -/
structure domain_def where
  name : String
  issuer : Nat
  issue_time : Nat
  issue : permission_def
  transfer : permission_def
  manage : permission_def
deriving DecidableEq, Repr

/-- Modelled from the spec: a non-fungible token record, scoped to a
`(domain, name)` composite key, with an owner key set (§3). -/
structure token_def where
  domain : String
  name : String
  owner : List Nat
deriving DecidableEq, Repr

/-- Modelled from the spec: an account record `{name, creator, balance,
frozen_balance, owner}` (§3), `account_def` in the source. -/
structure account_def where
  name : String
  creator : String
  balance : Int
  frozen_balance : Int
  owner : List Nat
deriving DecidableEq, Repr

/-- Modelled from the spec: the partial-update record `updateaccount`
handed to the store; absent fields leave the stored value untouched. -/
structure updateaccount where
  name : String
  owner : Option (List Nat)
  balance : Option Int
deriving DecidableEq, Repr

/-- Modelled from the spec: action schema
`newdomain{name, issuer, issue, transfer, manage, groups[]}` (§6). -/
structure newdomain where
  name : String
  issuer : Nat
  issue : permission_def
  transfer : permission_def
  manage : permission_def
  groups : List group_def
deriving DecidableEq, Repr

/-- Modelled from the spec: action schema
`issuetoken{domain, names[], owner}` (§6). -/
structure issuetoken where
  domain : String
  names : List String
  owner : List Nat
deriving DecidableEq, Repr

/-- Modelled from the spec: action schema `transfer{domain, name, to}`
(§6); `to` is the new owner key set. -/
structure transfer where
  domain : String
  name : String
  to_ : List Nat
deriving DecidableEq, Repr

/-- Modelled from the spec: action schema
`updategroup{id, threshold, keys[]}` (§6). -/
structure updategroup where
  id : Nat
  threshold : Nat
  keys : List key_weight
deriving DecidableEq, Repr

/-- Modelled from the spec: action schema
`updatedomain{name, issue?, transfer?, manage?, groups[]}` (§6); the
three permissions are optional fields. -/
structure updatedomain where
  name : String
  issue : Option permission_def
  transfer : Option permission_def
  manage : Option permission_def
  groups : List group_def
deriving DecidableEq, Repr

/-- Modelled from the spec: action schema `newaccount{name, owner}`
(§6). -/
structure newaccount where
  name : String
  owner : List Nat
deriving DecidableEq, Repr

/-- Modelled from the spec: action schema `updateowner{name, owner}`
(§6). -/
structure updateowner where
  name : String
  owner : List Nat
deriving DecidableEq, Repr

/-- Modelled from the spec: action schema `transferevt{from, to, amount}`
(§6); the asset amount is its integral number of units. -/
structure transferevt where
  from_ : String
  to_ : String
  amount : Int
deriving DecidableEq, Repr

/-- One mutating call into the Ledger Store, recorded in order. -/
inductive WriteOp where
  | addDomain : domain_def → WriteOp
  | addGroup : group_def → WriteOp
  | issueTokens : issuetoken → WriteOp
  | transferToken : transfer → WriteOp
  | updateGroup : updategroup → WriteOp
  | updateDomain : updatedomain → WriteOp
  | addAccount : account_def → WriteOp
  | updateAccount : updateaccount → WriteOp
deriving DecidableEq, Repr

/-- Modelled from the spec: the Ledger Store state (§6) — the persisted
domain, group, token and account records — together with the ordered log
of mutating store calls made so far. -/
structure LedgerState where
  domains : List domain_def
  groups : List group_def
  tokens : List token_def
  accounts : List account_def
  log : List WriteOp
deriving DecidableEq, Repr

/-- Modelled from the spec: the ambient `apply_context` — the
Authorization Oracle `has_authorized(scope_kind, scope_key)` (§6), the
one-way mapping `group_id::from_group_key` (§3), and the chain
controller's current head-block time. -/
structure ApplyContext where
  auth : String → String → Bool
  fromGroupKey : Nat → Nat
  head_block_time : Nat

/-- Modelled from the spec: the fixed system account name
(`config::system_account_name`), used as `creator` for new accounts; its
concrete value is not part of the sources. -/
def system_account_name : String := "evt"

/-- The default-constructed `account_def`, left in place by
`read_account` when the lookup finds nothing (the source's callback is
then never invoked). -/
def account_default : account_def :=
  { name := "", creator := "", balance := 0, frozen_balance := 0, owner := [] }

/-- `2 ^ 32`, the modulus of the source's `uint32_t` weight accumulator. -/
def u32 : Nat := 4294967296

/-- Modelled from the spec: smallest representable balance (signed
64-bit). -/
def balance_min : Int := -9223372036854775808

/-- Modelled from the spec: largest representable balance (signed
64-bit). -/
def balance_max : Int := 9223372036854775807

/-- Modelled from the spec: `safemath::test_sub` — overflow detection for
`a - b` over the representable balance range (§4.10); pure, mutates
nothing. -/
def test_sub (a b : Int) : Bool :=
  decide (balance_min ≤ a - b) && decide (a - b ≤ balance_max)

/-- Modelled from the spec: `safemath::test_add` — overflow detection for
`a + b` over the representable balance range (§4.10); pure, mutates
nothing. -/
def test_add (a b : Int) : Bool :=
  decide (balance_min ≤ a + b) && decide (a + b ≤ balance_max)

/-- Modelled from the spec: Ledger Store `exists_domain` (§6). -/
def exists_domain (s : LedgerState) (n : String) : Bool :=
  s.domains.any fun d => d.name == n

/-- Modelled from the spec: Ledger Store `add_domain` (§6). -/
def add_domain (s : LedgerState) (d : domain_def) : LedgerState :=
  { s with domains := s.domains ++ [d], log := s.log ++ [WriteOp.addDomain d] }

/-- Modelled from the spec: Ledger Store `update_domain` (§6, §4.4) —
only the supplied optional permission fields of the matching domain are
written, absent fields retain their stored values. -/
def update_domain (s : LedgerState) (ud : updatedomain) : LedgerState :=
  { s with
    domains := s.domains.map fun d =>
      if d.name == ud.name then
        { d with
          issue := ud.issue.getD d.issue
          transfer := ud.transfer.getD d.transfer
          manage := ud.manage.getD d.manage }
      else d
    log := s.log ++ [WriteOp.updateDomain ud] }

/-- Modelled from the spec: Ledger Store `exists_group` (§6). -/
def exists_group (s : LedgerState) (i : Nat) : Bool :=
  s.groups.any fun g => g.id == i

/-- Modelled from the spec: Ledger Store `add_group` (§6). -/
def add_group (s : LedgerState) (g : group_def) : LedgerState :=
  { s with groups := s.groups ++ [g], log := s.log ++ [WriteOp.addGroup g] }

/-- Modelled from the spec: Ledger Store `update_group` (§6, §4.5) — the
matching group's definition is overwritten with the new threshold and
key list. -/
def update_group (s : LedgerState) (ug : updategroup) : LedgerState :=
  { s with
    groups := s.groups.map fun g =>
      if g.id == ug.id then { g with threshold := ug.threshold, keys := ug.keys }
      else g
    log := s.log ++ [WriteOp.updateGroup ug] }

/-- Modelled from the spec: Ledger Store `exists_token` (§6). -/
def exists_token (s : LedgerState) (d n : String) : Bool :=
  s.tokens.any fun t => t.domain == d && t.name == n

/-- Modelled from the spec: Ledger Store `issue_tokens(batch)` (§6,
§4.6) — one token record per requested name, all sharing the batch's
owner, scoped to the batch's domain. -/
def issue_tokens (s : LedgerState) (it : issuetoken) : LedgerState :=
  { s with
    tokens := s.tokens ++ it.names.map fun n =>
      { domain := it.domain, name := n, owner := it.owner }
    log := s.log ++ [WriteOp.issueTokens it] }

/-- Modelled from the spec: Ledger Store `transfer_token` (§6, §4.7) —
the matching token's owner is overwritten. -/
def transfer_token (s : LedgerState) (tt : transfer) : LedgerState :=
  { s with
    tokens := s.tokens.map fun t =>
      if t.domain == tt.domain && t.name == tt.name then { t with owner := tt.to_ }
      else t
    log := s.log ++ [WriteOp.transferToken tt] }

/-- Modelled from the spec: Ledger Store `exists_account` (§6). -/
def exists_account (s : LedgerState) (n : String) : Bool :=
  s.accounts.any fun a => a.name == n

/-- Modelled from the spec: Ledger Store `add_account` (§6). -/
def add_account (s : LedgerState) (a : account_def) : LedgerState :=
  { s with accounts := s.accounts ++ [a], log := s.log ++ [WriteOp.addAccount a] }

/-- Modelled from the spec: the effect of `update_account(ua)` on one
stored record — the supplied fields are written, absent fields retained
(§3: records are replaced wholesale through the Store's update
primitive). The record's name is never changed. -/
def applyUpdAccount (ua : updateaccount) (a : account_def) : account_def :=
  if a.name == ua.name then
    { a with owner := ua.owner.getD a.owner, balance := ua.balance.getD a.balance }
  else a

/-- Modelled from the spec: Ledger Store `update_account` (§6). -/
def update_account (s : LedgerState) (ua : updateaccount) : LedgerState :=
  { s with
    accounts := s.accounts.map (applyUpdAccount ua)
    log := s.log ++ [WriteOp.updateAccount ua] }

/-- Modelled from the spec: Ledger Store `read_account(name, callback)`
(§6) — the handler's local copy after the read: the stored record when
present, otherwise the default-constructed account. -/
def read_account (s : LedgerState) (n : String) : account_def :=
  (s.accounts.find? fun a => a.name == n).getD account_default

/-! ### Validation primitives (`__internal::validate`, source lines 24–60) -/

/-- The loop guard `prev && (prev->id <= gw.id)` of
`validate(const permission_def&)` (source line 29): fail when a previous
entry exists whose id is not strictly greater than the current one. -/
def prevFailPerm : Option Nat → Nat → Bool
  | none, _ => false
  | some p, i => decide (p ≤ i)

/-- The iteration of `validate(const permission_def&)` (source lines
27–38): `prev` is the previous entry's id, `total` the `uint32_t`
accumulator. -/
def permCheckAux (threshold : Nat) : Option Nat → Nat → List group_weight → Bool
  | _, total, [] => decide (threshold ≤ total)
  | prev, total, gw :: rest =>
    if prevFailPerm prev gw.id then false
    else if gw.weight == 0 then false
    else permCheckAux threshold (some gw.id) ((total + gw.weight) % u32) rest

/-- `__internal::validate(const permission_def&)` (source lines 24–39). -/
def validate_permission (p : permission_def) : Bool :=
  permCheckAux p.threshold none 0 p.groups

/-- The loop guard `prev && ((prev->key < kw.key) || (prev->key ==
kw.key))` of the group validator (source line 50). -/
def prevFailKey : Option Nat → Nat → Bool
  | none, _ => false
  | some p, k => decide (p < k) || decide (p = k)

/-- The iteration of the templated group validator (source lines
47–59). -/
def keyCheckAux (threshold : Nat) : Option Nat → Nat → List key_weight → Bool
  | _, total, [] => decide (threshold ≤ total)
  | prev, total, kw :: rest =>
    if prevFailKey prev kw.key then false
    else if kw.weight == 0 then false
    else keyCheckAux threshold (some kw.key) ((total + kw.weight) % u32) rest

/-- `__internal::validate<T>` (source lines 41–60), over the threshold
and key list shared by `group_def` and `updategroup`. -/
def validate_keys (threshold : Nat) (keys : List key_weight) : Bool :=
  if threshold == 0 then false
  else keyCheckAux threshold none 0 keys

/-- `__internal::validate<T>` applied to a `group_def`. -/
def validate_group (g : group_def) : Bool :=
  validate_keys g.threshold g.keys

/-- `__internal::validate<T>` applied to an `updategroup`. -/
def validate_updategroup (u : updategroup) : Bool :=
  validate_keys u.threshold u.keys

/-- `__internal::make_permission_checker` (source lines 62–77): for each
referenced group, an empty id (the owner pseudo-group) is accepted only
when `allowed_owner` holds; a non-empty id must exist in the store XOR
appear among the action's inline group definitions. -/
def make_permission_checker (s : LedgerState) (gs : List group_def)
    (p : permission_def) (allowed_owner : Bool) : Bool :=
  p.groups.all fun g =>
    if g.id == 0 then allowed_owner
    else Bool.xor (exists_group s g.id) (gs.any fun gd => gd.id == g.id)

/-! ### Handlers (source lines 81–300) -/

/-- `EVT_ASSERT(cond, ...)`: when `cond` holds the handler continues
with `k`; otherwise it raises `action_validate_exception`, aborting with
the store state as reached at that point. -/
def evtAssert (c : Bool) (k : Option Unit × LedgerState) (s : LedgerState) :
    Option Unit × LedgerState :=
  if c then k else (none, s)

/-- `apply_evt_newdomain` (source lines 81–125). The per-group loop's
two asserts (structural validity and id/key match) are folded into one
conjunction over the inline group list. -/
def apply_evt_newdomain (ctx : ApplyContext) (ndact : newdomain)
    (s : LedgerState) : Option Unit × LedgerState :=
  evtAssert (ctx.auth ("domain") ndact.name)
    (evtAssert (!exists_domain s ndact.name)
      (evtAssert (ndact.groups.all fun g =>
          validate_group g && (g.id == ctx.fromGroupKey g.key))
        (evtAssert (!(ndact.name == ""))
          (evtAssert (ndact.issue.name == "issue")
            (evtAssert (decide (0 < ndact.issue.threshold) &&
                validate_permission ndact.issue)
              (evtAssert (ndact.transfer.name == "transfer")
                (evtAssert (decide (0 < ndact.transfer.threshold) &&
                    validate_permission ndact.transfer)
                  (evtAssert (ndact.manage.name == "manage")
                    (evtAssert (validate_permission ndact.manage)
                      (evtAssert
                        (make_permission_checker s ndact.groups ndact.issue false)
                        (evtAssert
                          (make_permission_checker s ndact.groups ndact.transfer true)
                          (evtAssert
                            (make_permission_checker s ndact.groups ndact.manage false)
                            (some (),
                              ndact.groups.foldl add_group
                                (add_domain s
                                  { name := ndact.name, issuer := ndact.issuer,
                                    issue_time := ctx.head_block_time,
                                    issue := ndact.issue,
                                    transfer := ndact.transfer,
                                    manage := ndact.manage }))
                            s) s) s) s) s) s) s) s) s) s) s) s) s

/-- `apply_evt_issuetoken` (source lines 127–143). The per-name
collision loop is folded into one conjunction over the name list. -/
def apply_evt_issuetoken (ctx : ApplyContext) (itact : issuetoken)
    (s : LedgerState) : Option Unit × LedgerState :=
  evtAssert (ctx.auth itact.domain ("issue"))
    (evtAssert (exists_domain s itact.domain)
      (evtAssert (!itact.owner.isEmpty)
        (evtAssert (itact.names.all fun n => !exists_token s itact.domain n)
          (some (), issue_tokens s itact)
          s) s) s) s

/-- `apply_evt_transfer` (source lines 145–154). -/
def apply_evt_transfer (ctx : ApplyContext) (ttact : transfer)
    (s : LedgerState) : Option Unit × LedgerState :=
  evtAssert (ctx.auth ttact.domain ttact.name)
    (evtAssert (exists_token s ttact.domain ttact.name)
      (some (), transfer_token s ttact)
      s) s

/-- `apply_evt_updategroup` (source lines 156–172). -/
def apply_evt_updategroup (ctx : ApplyContext) (ugact : updategroup)
    (s : LedgerState) : Option Unit × LedgerState :=
  evtAssert (ctx.auth ("group") (toString ugact.id))
    (evtAssert (exists_group s ugact.id)
      (evtAssert (decide (0 < ugact.keys.length))
        (evtAssert (validate_updategroup ugact)
          (some (), update_group s ugact)
          s) s) s) s

/-- The per-optional-permission validation block of
`apply_evt_updatedomain` (source lines 192–207): absent fields pass;
a present permission must bear the slot's fixed name, have a positive
threshold when `needPos`, validate, and pass the permission checker with
the slot's owner-group allowance. -/
def optPermOk (s : LedgerState) (gs : List group_def) (slot : String)
    (needPos allowedOwner : Bool) : Option permission_def → Bool
  | none => true
  | some p =>
    (p.name == slot) && (!needPos || decide (0 < p.threshold)) &&
      validate_permission p && make_permission_checker s gs p allowedOwner

/-- `apply_evt_updatedomain` (source lines 174–212). The per-group
loop and each optional permission's assert block are folded into one
boolean each. -/
def apply_evt_updatedomain (ctx : ApplyContext) (udact : updatedomain)
    (s : LedgerState) : Option Unit × LedgerState :=
  evtAssert (ctx.auth udact.name ("manage"))
    (evtAssert (exists_domain s udact.name)
      (evtAssert (udact.groups.all fun g =>
          validate_group g && (g.id == ctx.fromGroupKey g.key))
        (evtAssert (!(udact.name == ""))
          (evtAssert (optPermOk s udact.groups ("issue") true false udact.issue)
            (evtAssert (optPermOk s udact.groups ("transfer") true true udact.transfer)
              (evtAssert (optPermOk s udact.groups ("manage") false false udact.manage)
                (some (), update_domain s udact)
                s) s) s) s) s) s) s

/-- `apply_evt_newaccount` (source lines 214–236). -/
def apply_evt_newaccount (ctx : ApplyContext) (naact : newaccount)
    (s : LedgerState) : Option Unit × LedgerState :=
  evtAssert (ctx.auth ("account") naact.name)
    (evtAssert (!(naact.name == ""))
      (evtAssert (!exists_account s naact.name)
        (some (),
          add_account s
            { name := naact.name, creator := system_account_name,
              balance := 10000, frozen_balance := 0, owner := naact.owner })
        s) s) s

/-- `apply_evt_updateowner` (source lines 238–256). -/
def apply_evt_updateowner (ctx : ApplyContext) (uoact : updateowner)
    (s : LedgerState) : Option Unit × LedgerState :=
  evtAssert (ctx.auth ("account") uoact.name)
    (evtAssert (exists_account s uoact.name)
      (evtAssert (decide (0 < uoact.owner.length))
        (some (),
          update_account s
            { name := uoact.name, owner := some uoact.owner, balance := none })
        s) s) s

/-- `apply_evt_transferevt` (source lines 258–300). The two
`read_account` calls, the balance and overflow checks, and the two
`update_account` writes follow the source line by line; the update
records carry the names of the records read back, as in the source. -/
def apply_evt_transferevt (ctx : ApplyContext) (teact : transferevt)
    (s : LedgerState) : Option Unit × LedgerState :=
  evtAssert (ctx.auth ("account") teact.from_)
    (evtAssert (exists_account s teact.from_)
      (evtAssert (exists_account s teact.to_)
        (evtAssert (decide (0 < teact.amount))
          (evtAssert (decide (teact.amount ≤ (read_account s teact.from_).balance))
            (evtAssert (test_sub (read_account s teact.from_).balance teact.amount &&
                test_add (read_account s teact.to_).balance teact.amount)
              (some (),
                update_account
                  (update_account s
                    { name := (read_account s teact.from_).name, owner := none,
                      balance :=
                        some ((read_account s teact.from_).balance - teact.amount) })
                  { name := (read_account s teact.to_).name, owner := none,
                    balance :=
                      some ((read_account s teact.to_).balance + teact.amount) })
              s) s) s) s) s) s

lemma evtAssert_none {c : Bool} {k : Option Unit × LedgerState}
    {s s' : LedgerState} (hk : k = (none, s') → s' = s) :
    evtAssert c k s = (none, s') → s' = s := by
  intro h
  rw [evtAssert] at h
  cases hc : c with
  | true =>
    rw [hc] at h
    simp only [if_true] at h
    exact hk h
  | false =>
    rw [hc] at h
    simp only [Bool.false_eq_true, if_false] at h
    injection h with h1 h2
    exact h2.symm

lemma evtAssert_some {c : Bool} {k : Option Unit × LedgerState}
    {s s' : LedgerState} {u : Unit} (h : evtAssert c k s = (some u, s')) :
    c = true ∧ k = (some u, s') := by
  rw [evtAssert] at h
  cases hc : c with
  | true =>
    rw [hc] at h
    simp only [if_true] at h
    exact ⟨rfl, h⟩
  | false =>
    rw [hc] at h
    simp only [Bool.false_eq_true, if_false] at h
    injection h with h1 h2
    exact Option.noConfusion h1


/-! ### Spec-side vocabulary for the validation primitives -/

/-- `descFrom prev l`: the list `l` is strictly descending, and strictly
below `prev` when a previous element is given. -/
def descFrom : Option Nat → List Nat → Bool
  | _, [] => true
  | none, i :: rest => descFrom (some i) rest
  | some p, i :: rest => decide (i < p) && descFrom (some i) rest

/-- The spec's "strictly descending order" over a list of ids or keys. -/
def strictlyDescending (l : List Nat) : Bool :=
  descFrom none l

/-- The weight total as the source accumulates it: a `uint32_t` running
sum, i.e. reduced modulo `2 ^ 32` at every addition, started from
`total`. -/
def wsumFrom (total : Nat) (l : List group_weight) : Nat :=
  l.foldl (fun t gw => (t + gw.weight) % u32) total

/-- The wrapped weight total of a permission's group entries. -/
def wsum (l : List group_weight) : Nat :=
  wsumFrom 0 l

/-- The wrapped weight total of a group's key entries, started from
`total`. -/
def wsumKFrom (total : Nat) (l : List key_weight) : Nat :=
  l.foldl (fun t kw => (t + kw.weight) % u32) total

/-- The wrapped weight total of a group's key entries. -/
def wsumK (l : List key_weight) : Nat :=
  wsumKFrom 0 l

lemma permCheckAux_true (threshold : Nat) (l : List group_weight) :
    ∀ (prev : Option Nat) (total : Nat),
      permCheckAux threshold prev total l = true ↔
        (descFrom prev (l.map fun gw => gw.id) = true ∧
          (∀ gw ∈ l, gw.weight ≠ 0) ∧
          threshold ≤ wsumFrom total l) := by
  induction l with
  | nil =>
    intro prev total
    cases prev <;> simp [permCheckAux, descFrom, wsumFrom]
  | cons gw rest ih =>
    intro prev total
    cases prev with
    | none =>
      cases hw : gw.weight == 0 with
      | true =>
        have hw0 : gw.weight = 0 := by simpa using hw
        simp [permCheckAux, prevFailPerm, hw, hw0]
      | false =>
        have hw0 : gw.weight ≠ 0 := by simpa using hw
        simp [permCheckAux, prevFailPerm, hw, descFrom, wsumFrom, ih, hw0]
    | some p =>
      by_cases hple : p ≤ gw.id
      · have hfail : prevFailPerm (some p) gw.id = true := by
          simp [prevFailPerm, hple]
        have hnlt : ¬ (gw.id < p) := by omega
        simp [permCheckAux, hfail, descFrom, hnlt]
      · have hfail : prevFailPerm (some p) gw.id = false := by
          simp [prevFailPerm, hple]
        have hlt : gw.id < p := by omega
        cases hw : gw.weight == 0 with
        | true =>
          have hw0 : gw.weight = 0 := by simpa using hw
          simp [permCheckAux, hfail, hw, hw0]
        | false =>
          have hw0 : gw.weight ≠ 0 := by simpa using hw
          simp [permCheckAux, hfail, hw, descFrom, hlt, wsumFrom, ih, hw0]

lemma keyCheckAux_true (threshold : Nat) (l : List key_weight) :
    ∀ (prev : Option Nat) (total : Nat),
      keyCheckAux threshold prev total l = true ↔
        (descFrom prev (l.map fun kw => kw.key) = true ∧
          (∀ kw ∈ l, kw.weight ≠ 0) ∧
          threshold ≤ wsumKFrom total l) := by
  induction l with
  | nil =>
    intro prev total
    cases prev <;> simp [keyCheckAux, descFrom, wsumKFrom]
  | cons kw rest ih =>
    intro prev total
    cases prev with
    | none =>
      cases hw : kw.weight == 0 with
      | true =>
        have hw0 : kw.weight = 0 := by simpa using hw
        simp [keyCheckAux, prevFailKey, hw, hw0]
      | false =>
        have hw0 : kw.weight ≠ 0 := by simpa using hw
        simp [keyCheckAux, prevFailKey, hw, descFrom, wsumKFrom, ih, hw0]
    | some p =>
      by_cases hple : p ≤ kw.key
      · have hfail : prevFailKey (some p) kw.key = true := by
          have : p < kw.key ∨ p = kw.key := by omega
          rcases this with h | h <;> simp [prevFailKey, h]
        have hnlt : ¬ (kw.key < p) := by omega
        simp [keyCheckAux, hfail, descFrom, hnlt]
      · have hfail : prevFailKey (some p) kw.key = false := by
          have h1 : ¬ (p < kw.key) := by omega
          have h2 : ¬ (p = kw.key) := by omega
          simp [prevFailKey, h1, h2]
        have hlt : kw.key < p := by omega
        cases hw : kw.weight == 0 with
        | true =>
          have hw0 : kw.weight = 0 := by simpa using hw
          simp [keyCheckAux, hfail, hw, hw0]
        | false =>
          have hw0 : kw.weight ≠ 0 := by simpa using hw
          simp [keyCheckAux, hfail, hw, descFrom, hlt, wsumKFrom, ih, hw0]

lemma descFrom_some_lt (l : List Nat) :
    ∀ p, descFrom (some p) l = true → (∀ x ∈ l, x < p) ∧ descFrom none l = true := by
  induction l with
  | nil => intro p _; simp [descFrom]
  | cons i rest ih =>
    intro p h
    rw [descFrom] at h
    simp only [Bool.and_eq_true, decide_eq_true_eq] at h
    obtain ⟨h1, h2⟩ := h
    obtain ⟨h3, _⟩ := ih i h2
    refine ⟨?_, ?_⟩
    · intro x hx
      rcases List.mem_cons.mp hx with rfl | hx
      · exact h1
      · exact (h3 x hx).trans h1
    · rw [descFrom]
      exact h2

lemma strictlyDescending_nodup (l : List Nat)
    (h : strictlyDescending l = true) : l.Nodup := by
  induction l with
  | nil => simp
  | cons i rest ih =>
    rw [strictlyDescending, descFrom] at h
    obtain ⟨hlt, hnone⟩ := descFrom_some_lt rest i h
    rw [List.nodup_cons]
    exact ⟨fun hm => absurd (hlt i hm) (lt_irrefl i), ih hnone⟩

lemma validate_permission_false_iff (p : permission_def) :
    validate_permission p = false ↔
      descFrom none (p.groups.map fun gw => gw.id) = false ∨
      (∃ gw ∈ p.groups, gw.weight = 0) ∨
      wsum p.groups < p.threshold := by
  have hch := permCheckAux_true p.threshold p.groups none 0
  rw [show validate_permission p = permCheckAux p.threshold none 0 p.groups from rfl,
    Bool.eq_false_iff, Ne, hch]
  constructor
  · intro h
    by_cases hd : descFrom none (p.groups.map fun gw => gw.id) = true
    · by_cases hz : ∃ gw ∈ p.groups, gw.weight = 0
      · exact Or.inr (Or.inl hz)
      · refine Or.inr (Or.inr ?_)
        push_neg at hz
        by_contra hlt
        exact h ⟨hd, hz, Nat.le_of_not_lt hlt⟩
    · exact Or.inl (Bool.eq_false_iff.mpr hd)
  · intro h hc
    obtain ⟨hd, hnz, hle⟩ := hc
    rcases h with h | h | h
    · rw [h] at hd
      exact Bool.false_ne_true hd
    · obtain ⟨gw, hm, h0⟩ := h
      exact hnz gw hm h0
    · exact Nat.lt_irrefl _ (Nat.lt_of_lt_of_le h hle)

lemma validate_keys_false_iff (threshold : Nat) (keys : List key_weight) :
    validate_keys threshold keys = false ↔
      threshold = 0 ∨
      descFrom none (keys.map fun kw => kw.key) = false ∨
      (∃ kw ∈ keys, kw.weight = 0) ∨
      wsumK keys < threshold := by
  by_cases h0 : threshold = 0
  · simp [validate_keys, h0]
  · have hb0 : (threshold == 0) = false := by simpa using h0
    have hch := keyCheckAux_true threshold keys none 0
    rw [validate_keys, hb0]
    simp only [Bool.false_eq_true, if_false]
    rw [Bool.eq_false_iff, Ne, hch]
    constructor
    · intro h
      by_cases hd : descFrom none (keys.map fun kw => kw.key) = true
      · by_cases hz : ∃ kw ∈ keys, kw.weight = 0
        · exact Or.inr (Or.inr (Or.inl hz))
        · refine Or.inr (Or.inr (Or.inr ?_))
          push_neg at hz
          by_contra hlt
          exact h ⟨hd, hz, Nat.le_of_not_lt hlt⟩
      · exact Or.inr (Or.inl (Bool.eq_false_iff.mpr hd))
    · intro h hc
      obtain ⟨hd, hnz, hle⟩ := hc
      rcases h with h | h | h | h
      · exact h0 h
      · rw [h] at hd
        exact Bool.false_ne_true hd
      · obtain ⟨kw, hm, hz⟩ := h
        exact hnz kw hm hz
      · exact Nat.lt_irrefl _ (Nat.lt_of_lt_of_le h hle)

/-- C5 (amended): `validate` over a permission definition returns false
iff the group ids are not strictly descending, or contain a duplicate,
or some weight is zero, or the weight total as accumulated in the
handler's 32-bit accumulator (the sum of the weights reduced modulo
`2 ^ 32` at every addition) is strictly below the threshold. -/
theorem validate_permission_characterization (p : permission_def) :
    validate_permission p = false ↔
      strictlyDescending (p.groups.map fun gw => gw.id) = false ∨
      ¬ (p.groups.map fun gw => gw.id).Nodup ∨
      (∃ gw ∈ p.groups, gw.weight = 0) ∨
      wsum p.groups < p.threshold := by
  rw [validate_permission_false_iff]
  rw [show strictlyDescending (p.groups.map fun gw => gw.id) =
    descFrom none (p.groups.map fun gw => gw.id) from rfl]
  constructor
  · intro h
    rcases h with h | h | h
    · exact Or.inl h
    · exact Or.inr (Or.inr (Or.inl h))
    · exact Or.inr (Or.inr (Or.inr h))
  · intro h
    rcases h with h | h | h | h
    · exact Or.inl h
    · left
      cases hb : descFrom none (p.groups.map fun gw => gw.id) with
      | false => rfl
      | true => exact absurd (strictlyDescending_nodup _ hb) h
    · exact Or.inr (Or.inl h)
    · exact Or.inr (Or.inr h)

/-- A permission whose entries are strictly descending, duplicate-free
and of nonzero weight, whose mathematical weight sum reaches the
threshold, but whose `uint32_t`-accumulated total wraps to `0`. -/
def c5perm : permission_def :=
  { name := "issue", threshold := 1,
    groups := [{ id := 2, weight := 2147483648 }, { id := 1, weight := 2147483648 }] }

/-- C5 counterexample: `validate` rejects `c5perm` although none of the
claim's four failure conditions holds — in particular the mathematical
sum of the weights (`2 ^ 32`) is not below the threshold; the 32-bit
accumulator wraps to `0`. -/
theorem validate_permission_wrap_counterexample :
    validate_permission c5perm = false ∧
    strictlyDescending (c5perm.groups.map fun gw => gw.id) = true ∧
    (c5perm.groups.map fun gw => gw.id).Nodup ∧
    (∀ gw ∈ c5perm.groups, gw.weight ≠ 0) ∧
    c5perm.threshold ≤ (c5perm.groups.map fun gw => gw.weight).sum := by
  refine ⟨by decide, by decide, by decide, by decide, by decide⟩

/-- C6 (amended): `validate` over a group definition returns false iff
the threshold is zero, or the member keys are not strictly descending,
or contain a duplicate, or some weight is zero, or the weight total as
accumulated in the handler's 32-bit accumulator (the sum of the weights
reduced modulo `2 ^ 32` at every addition) is strictly below the
threshold. -/
theorem validate_group_characterization (g : group_def) :
    validate_group g = false ↔
      g.threshold = 0 ∨
      strictlyDescending (g.keys.map fun kw => kw.key) = false ∨
      ¬ (g.keys.map fun kw => kw.key).Nodup ∨
      (∃ kw ∈ g.keys, kw.weight = 0) ∨
      wsumK g.keys < g.threshold := by
  rw [show validate_group g = validate_keys g.threshold g.keys from rfl,
    validate_keys_false_iff]
  rw [show strictlyDescending (g.keys.map fun kw => kw.key) =
    descFrom none (g.keys.map fun kw => kw.key) from rfl]
  constructor
  · intro h
    rcases h with h | h | h | h
    · exact Or.inl h
    · exact Or.inr (Or.inl h)
    · exact Or.inr (Or.inr (Or.inr (Or.inl h)))
    · exact Or.inr (Or.inr (Or.inr (Or.inr h)))
  · intro h
    rcases h with h | h | h | h | h
    · exact Or.inl h
    · exact Or.inr (Or.inl h)
    · right; left
      cases hb : descFrom none (g.keys.map fun kw => kw.key) with
      | false => rfl
      | true => exact absurd (strictlyDescending_nodup _ hb) h
    · exact Or.inr (Or.inr (Or.inl h))
    · exact Or.inr (Or.inr (Or.inr h))

/-- A group whose member keys are strictly descending, duplicate-free
and of nonzero weight, whose threshold is positive and reached by the
mathematical weight sum, but whose `uint32_t`-accumulated total wraps to
`0`. -/
def c6group : group_def :=
  { id := 1, key := 1, threshold := 1,
    keys := [{ key := 2, weight := 2147483648 }, { key := 1, weight := 2147483648 }] }

/-- C6 counterexample: `validate` rejects `c6group` although none of the
claim's failure conditions holds — the threshold is nonzero and the
mathematical sum of the weights (`2 ^ 32`) is not below it; the 32-bit
accumulator wraps to `0`. -/
theorem validate_group_wrap_counterexample :
    validate_group c6group = false ∧
    c6group.threshold ≠ 0 ∧
    strictlyDescending (c6group.keys.map fun kw => kw.key) = true ∧
    (c6group.keys.map fun kw => kw.key).Nodup ∧
    (∀ kw ∈ c6group.keys, kw.weight ≠ 0) ∧
    c6group.threshold ≤ (c6group.keys.map fun kw => kw.weight).sum := by
  refine ⟨by decide, by decide, by decide, by decide, by decide, by decide⟩

/-! ### Helper lemmas about the store -/

lemma applyUpdAccount_name (ua : updateaccount) (a : account_def) :
    (applyUpdAccount ua a).name = a.name := by
  rw [applyUpdAccount]
  split <;> rfl

lemma find?_map_applyUpdAccount (ua : updateaccount) (n : String)
    (l : List account_def) :
    (l.map (applyUpdAccount ua)).find? (fun a => a.name == n) =
      (l.find? (fun a => a.name == n)).map (applyUpdAccount ua) := by
  induction l with
  | nil => rfl
  | cons a t ih =>
    have hname : ((applyUpdAccount ua a).name == n) = (a.name == n) := by
      rw [applyUpdAccount_name]
    cases hn : (a.name == n) with
    | true => simp [List.find?, hname, hn]
    | false => simp [List.find?, hname, hn, ih]

lemma find?_eq_none_of_any_false (n : String) (l : List account_def)
    (h : (l.any fun a => a.name == n) = false) :
    l.find? (fun a => a.name == n) = none := by
  rw [List.find?_eq_none]
  intro x hx hpx
  have hany : (l.any fun a => a.name == n) = true :=
    List.any_eq_true.mpr ⟨x, hx, hpx⟩
  rw [h] at hany
  exact Bool.false_ne_true hany

lemma find?_name_of_any (n : String) (l : List account_def)
    (h : (l.any fun a => a.name == n) = true) :
    ∃ a, l.find? (fun a => a.name == n) = some a ∧ a.name = n := by
  obtain ⟨x, hx, hpx⟩ := List.any_eq_true.mp h
  have hs : (l.find? fun a => a.name == n).isSome :=
    List.find?_isSome.mpr ⟨x, hx, hpx⟩
  obtain ⟨a, ha⟩ := Option.isSome_iff_exists.mp hs
  have hp := List.find?_some ha
  exact ⟨a, ha, by simpa using hp⟩

lemma read_account_update (s : LedgerState) (ua : updateaccount) (n : String) :
    read_account (update_account s ua) n =
      ((s.accounts.find? fun a => a.name == n).map (applyUpdAccount ua)).getD
        account_default := by
  rw [read_account, update_account]
  rw [show ({ s with
      accounts := s.accounts.map (applyUpdAccount ua)
      log := s.log ++ [WriteOp.updateAccount ua] } : LedgerState).accounts =
    s.accounts.map (applyUpdAccount ua) from rfl]
  rw [find?_map_applyUpdAccount]

lemma foldl_add_group_spec (gs : List group_def) :
    ∀ st : LedgerState,
      gs.foldl add_group st =
        { st with
          groups := st.groups ++ gs
          log := st.log ++ gs.map WriteOp.addGroup } := by
  induction gs with
  | nil => intro st; simp
  | cons g t ih =>
    intro st
    rw [List.foldl_cons, ih]
    simp [add_group, List.append_assoc]

/-! ### Claim theorems about the handlers -/

/-- C7: the group resolver accepts a permission iff every referenced
group with a non-empty id exists in the store XOR appears among the
action's inline group definitions, and every empty-id (owner
pseudo-group) entry is accepted iff the slot allows the owner group;
`apply_evt_newdomain` allows the owner group exactly for its transfer
permission, never for issue or manage. -/
theorem permission_checker_characterization :
    (∀ (s : LedgerState) (gs : List group_def) (p : permission_def) (ao : Bool),
        make_permission_checker s gs p ao = true ↔
          ∀ gw ∈ p.groups,
            (gw.id = 0 → ao = true) ∧
            (gw.id ≠ 0 →
              Bool.xor (exists_group s gw.id) (gs.any fun gd => gd.id == gw.id) =
                true)) ∧
    (∀ (ctx : ApplyContext) (a : newdomain) (s s' : LedgerState),
        apply_evt_newdomain ctx a s = (some (), s') →
          make_permission_checker s a.groups a.issue false = true ∧
          make_permission_checker s a.groups a.transfer true = true ∧
          make_permission_checker s a.groups a.manage false = true) := by
  constructor
  · intro s gs p ao
    rw [make_permission_checker, List.all_eq_true]
    refine forall_congr' fun g => imp_congr_right fun _ => ?_
    by_cases h0 : g.id = 0
    · simp [h0]
    · have hb : (g.id == 0) = false := by simpa using h0
      simp [hb, h0]
  · intro ctx a s s' h
    rw [apply_evt_newdomain] at h
    obtain ⟨h1, h⟩ := evtAssert_some h
    obtain ⟨h2, h⟩ := evtAssert_some h
    obtain ⟨h3, h⟩ := evtAssert_some h
    obtain ⟨h4, h⟩ := evtAssert_some h
    obtain ⟨h5, h⟩ := evtAssert_some h
    obtain ⟨h6, h⟩ := evtAssert_some h
    obtain ⟨h7, h⟩ := evtAssert_some h
    obtain ⟨h8, h⟩ := evtAssert_some h
    obtain ⟨h9, h⟩ := evtAssert_some h
    obtain ⟨h10, h⟩ := evtAssert_some h
    obtain ⟨h11, h⟩ := evtAssert_some h
    obtain ⟨h12, h⟩ := evtAssert_some h
    obtain ⟨h13, h⟩ := evtAssert_some h
    exact ⟨h11, h12, h13⟩

/-- Inputs for the C7 witness: a fresh ledger and a `newdomain` action
whose issue permission references the inline group, whose transfer
permission references the owner pseudo-group, and whose manage
permission references nothing. -/
def c7ctx : ApplyContext :=
  { auth := fun _ _ => true, fromGroupKey := fun k => k, head_block_time := 0 }

def c7act : newdomain :=
  { name := "d", issuer := 9,
    issue := { name := "issue", threshold := 1, groups := [{ id := 7, weight := 1 }] },
    transfer := { name := "transfer", threshold := 1, groups := [{ id := 0, weight := 1 }] },
    manage := { name := "manage", threshold := 0, groups := [] },
    groups := [{ id := 7, key := 7, threshold := 1, keys := [{ key := 3, weight := 1 }] }] }

def c7state : LedgerState :=
  { domains := [], groups := [], tokens := [], accounts := [], log := [] }

/-- C7 witness: the successful concrete `newdomain` run passes the three
permission-checker calls with owner allowance false/true/false. -/
theorem permission_checker_characterization_witness :
    make_permission_checker c7state c7act.groups c7act.issue false = true ∧
    make_permission_checker c7state c7act.groups c7act.transfer true = true ∧
    make_permission_checker c7state c7act.groups c7act.manage false = true :=
  permission_checker_characterization.2 c7ctx c7act c7state
    (apply_evt_newdomain c7ctx c7act c7state).2 rfl

/-- C4 (amended): `apply_evt_updatedomain` authorizes the scope
`(domain-name, "manage")` — not `("domain", name)` as `apply_evt_newdomain`
does: the handler fails with no mutation whenever the oracle denies
`(name, "manage")`, and any successful run had the oracle grant it. -/
theorem updatedomain_auth_scope_manage (ctx : ApplyContext) (act : updatedomain)
    (s : LedgerState) :
    (ctx.auth act.name ("manage") = false →
      apply_evt_updatedomain ctx act s = (none, s)) ∧
    (∀ s', apply_evt_updatedomain ctx act s = (some (), s') →
      ctx.auth act.name ("manage") = true) := by
  cases hb : ctx.auth act.name ("manage") with
  | false =>
    constructor
    · intro _
      rw [apply_evt_updatedomain, hb]
      rfl
    · intro s' h
      rw [apply_evt_updatedomain, hb] at h
      exact (evtAssert_some h).1
  | true => exact ⟨fun hf => Bool.noConfusion hf, fun _ _ => rfl⟩

/-- An oracle granting exactly the scopes whose kind argument is the
literal `"domain"`, a stored domain `"d"`, and an `updatedomain` action
on `"d"` carrying no optional permission and no inline group, so that
every precondition other than the authorization check is satisfied. -/
def c4ctx : ApplyContext :=
  { auth := fun a _ => a == "domain", fromGroupKey := fun k => k, head_block_time := 0 }

def c4yctx : ApplyContext :=
  { auth := fun _ _ => true, fromGroupKey := fun k => k, head_block_time := 0 }

def c4perm : permission_def := { name := "x", threshold := 0, groups := [] }

def c4state : LedgerState :=
  { domains := [{ name := "d", issuer := 0, issue_time := 0, issue := c4perm,
                  transfer := c4perm, manage := c4perm }],
    groups := [], tokens := [], accounts := [], log := [] }

def c4act : updatedomain :=
  { name := "d", issue := none, transfer := none, manage := none, groups := [] }

/-- C4 counterexample: the oracle answers yes for scope
`("domain", "d")`, every other precondition of the `updatedomain` action
holds, yet the handler rejects it at its first check — so the handler's
first check is not the claimed `("domain", name)` scope. -/
theorem updatedomain_auth_scope_counterexample :
    c4ctx.auth ("domain") c4act.name = true ∧
    apply_evt_updatedomain c4ctx c4act c4state = (none, c4state) ∧
    apply_evt_updatedomain c4yctx c4act c4state =
      (some (), update_domain c4state c4act) := by
  refine ⟨by decide, by decide, by decide⟩

/-- C4 witness: the amended theorem applied at concrete inputs — the
denied-oracle run fails with the state untouched, and the successful run
had the `("d", "manage")` scope granted. -/
theorem updatedomain_auth_scope_manage_witness :
    apply_evt_updatedomain c4ctx c4act c4state = (none, c4state) ∧
    c4yctx.auth c4act.name ("manage") = true :=
  ⟨(updatedomain_auth_scope_manage c4ctx c4act c4state).1 (by decide),
   (updatedomain_auth_scope_manage c4yctx c4act c4state).2
     (apply_evt_updatedomain c4yctx c4act c4state).2 rfl⟩

/-- A single account `"a"` with balance `100`, and a self-transfer of
`10` from `"a"` to `"a"`. -/
def c2ctx : ApplyContext :=
  { auth := fun _ _ => true, fromGroupKey := fun k => k, head_block_time := 0 }

def c2state : LedgerState :=
  { domains := [], groups := [], tokens := [], accounts :=
      [{ name := "a", creator := "evt", balance := 100, frozen_balance := 0,
         owner := [1] }],
    log := [] }

def c2act : transferevt := { from_ := "a", to_ := "a", amount := 10 }

/-- C2 (code bug): the self-transfer of `10` on a balance of `100`
passes every check and succeeds, yet leaves the account's stored balance
at `110` — the second `update_account` overwrites the first, crediting
the amount without the debit, so the action creates value instead of
being a no-op. -/
theorem transferevt_self_creates_value :
    (apply_evt_transferevt c2ctx c2act c2state).1 = some () ∧
    (read_account (apply_evt_transferevt c2ctx c2act c2state).2 ("a")).balance =
      110 := by
  refine ⟨rfl, rfl⟩

/-- C3: every handler that fails (raises `action_validate_exception`)
leaves the ledger store — records and write log — exactly as it found
it: all store writes happen only after all of the handler's precondition
checks have passed. -/
theorem handlers_no_mutation_on_failure (ctx : ApplyContext) :
    (∀ a s s', apply_evt_newdomain ctx a s = (none, s') → s' = s) ∧
    (∀ a s s', apply_evt_issuetoken ctx a s = (none, s') → s' = s) ∧
    (∀ a s s', apply_evt_transfer ctx a s = (none, s') → s' = s) ∧
    (∀ a s s', apply_evt_updategroup ctx a s = (none, s') → s' = s) ∧
    (∀ a s s', apply_evt_updatedomain ctx a s = (none, s') → s' = s) ∧
    (∀ a s s', apply_evt_newaccount ctx a s = (none, s') → s' = s) ∧
    (∀ a s s', apply_evt_updateowner ctx a s = (none, s') → s' = s) ∧
    (∀ a s s', apply_evt_transferevt ctx a s = (none, s') → s' = s) := by
  refine ⟨?_, ?_, ?_, ?_, ?_, ?_, ?_, ?_⟩ <;>
  · intro a s s' h
    revert h
    simp only [apply_evt_newdomain, apply_evt_issuetoken, apply_evt_transfer,
      apply_evt_updategroup, apply_evt_updatedomain, apply_evt_newaccount,
      apply_evt_updateowner, apply_evt_transferevt]
    repeat apply evtAssert_none
    intro h
    exact Option.noConfusion (congrArg Prod.fst h)

/-- An oracle that denies everything, so the transferevt handler fails
at its very first check. -/
def c3ctx : ApplyContext :=
  { auth := fun _ _ => false, fromGroupKey := fun k => k, head_block_time := 0 }

def c3act : transferevt := { from_ := "a", to_ := "b", amount := 1 }

def c3state : LedgerState :=
  { domains := [], groups := [], tokens := [], accounts := [], log := [] }

/-- C3 witness: the rejected concrete `transferevt` run leaves the state
unchanged. -/
theorem handlers_no_mutation_on_failure_witness :
    (apply_evt_transferevt c3ctx c3act c3state).2 = c3state :=
  (handlers_no_mutation_on_failure c3ctx).2.2.2.2.2.2.2 c3act c3state
    (apply_evt_transferevt c3ctx c3act c3state).2 rfl

lemma update_account_accounts (s : LedgerState) (ua : updateaccount) :
    (update_account s ua).accounts = s.accounts.map (applyUpdAccount ua) := rfl

lemma add_account_accounts (s : LedgerState) (a : account_def) :
    (add_account s a).accounts = s.accounts ++ [a] := rfl

lemma find?_append_of_none (l1 l2 : List account_def) (p : account_def → Bool)
    (h : l1.find? p = none) : (l1 ++ l2).find? p = l2.find? p := by
  induction l1 with
  | nil => rfl
  | cons a t ih =>
    cases hp : p a with
    | true =>
      rw [List.find?_cons_of_pos _ hp] at h
      exact Option.noConfusion h
    | false =>
      have hp' : ¬ p a = true := by rw [hp]; exact Bool.false_ne_true
      rw [List.find?_cons_of_neg _ hp'] at h
      rw [List.cons_append, List.find?_cons_of_neg _ hp']
      exact ih h

/-- C1: a successful `transferevt` between two distinct accounts leaves
the sender's stored balance lower by exactly the amount, and the
recipient's stored balance higher by exactly the amount, relative to the
values the handler read. -/
theorem transferevt_moves_amount (ctx : ApplyContext) (act : transferevt)
    (s s' : LedgerState) (hne : act.from_ ≠ act.to_)
    (h : apply_evt_transferevt ctx act s = (some (), s')) :
    (read_account s' act.from_).balance =
      (read_account s act.from_).balance - act.amount ∧
    (read_account s' act.to_).balance =
      (read_account s act.to_).balance + act.amount := by
  rw [apply_evt_transferevt] at h
  obtain ⟨h1, h⟩ := evtAssert_some h
  obtain ⟨h2, h⟩ := evtAssert_some h
  obtain ⟨h3, h⟩ := evtAssert_some h
  obtain ⟨h4, h⟩ := evtAssert_some h
  obtain ⟨h5, h⟩ := evtAssert_some h
  obtain ⟨h6, h⟩ := evtAssert_some h
  injection h with hu hs
  obtain ⟨aF, haF, haFn⟩ := find?_name_of_any act.from_ s.accounts h2
  obtain ⟨aT, haT, haTn⟩ := find?_name_of_any act.to_ s.accounts h3
  have hreadF : read_account s act.from_ = aF := by
    rw [read_account, haF]; rfl
  have hreadT : read_account s act.to_ = aT := by
    rw [read_account, haT]; rfl
  subst hs
  rw [hreadF, hreadT]
  have hFT : (aF.name == aT.name) = false := by
    rw [haFn, haTn]
    exact beq_eq_false_iff_ne.mpr hne
  have hTF : (aT.name == aF.name) = false := by
    rw [haFn, haTn]
    exact beq_eq_false_iff_ne.mpr (Ne.symm hne)
  constructor
  · rw [read_account_update, update_account_accounts, find?_map_applyUpdAccount, haF]
    simp [applyUpdAccount, hFT]
  · rw [read_account_update, update_account_accounts, find?_map_applyUpdAccount, haT]
    simp [applyUpdAccount, hTF]

/-- Accounts `"a"` (balance 100) and `"b"` (balance 5), and a transfer
of `7` from `"a"` to `"b"`. -/
def c1ctx : ApplyContext :=
  { auth := fun _ _ => true, fromGroupKey := fun k => k, head_block_time := 0 }

def c1state : LedgerState :=
  { domains := [], groups := [], tokens := [], accounts :=
      [{ name := "a", creator := "evt", balance := 100, frozen_balance := 0,
         owner := [1] },
       { name := "b", creator := "evt", balance := 5, frozen_balance := 0,
         owner := [2] }],
    log := [] }

def c1act : transferevt := { from_ := "a", to_ := "b", amount := 7 }

/-- C1 witness: the concrete successful transfer of `7` from `"a"` to
`"b"` debits and credits exactly `7`. -/
theorem transferevt_moves_amount_witness :
    (read_account (apply_evt_transferevt c1ctx c1act c1state).2
        c1act.from_).balance =
      (read_account c1state c1act.from_).balance - c1act.amount ∧
    (read_account (apply_evt_transferevt c1ctx c1act c1state).2
        c1act.to_).balance =
      (read_account c1state c1act.to_).balance + c1act.amount :=
  transferevt_moves_amount c1ctx c1act c1state
    (apply_evt_transferevt c1ctx c1act c1state).2 (by decide) rfl

/-- C8: a successful `newaccount` persists — and `read_account` reads
back — a record with the fixed system starting balance `10000`, zero
frozen balance, the system account as creator, and the action's owner. -/
theorem newaccount_roundtrip (ctx : ApplyContext) (act : newaccount)
    (s s' : LedgerState) (h : apply_evt_newaccount ctx act s = (some (), s')) :
    read_account s' act.name =
      { name := act.name, creator := system_account_name, balance := 10000,
        frozen_balance := 0, owner := act.owner } := by
  rw [apply_evt_newaccount] at h
  obtain ⟨h1, h⟩ := evtAssert_some h
  obtain ⟨h2, h⟩ := evtAssert_some h
  obtain ⟨h3, h⟩ := evtAssert_some h
  injection h with hu hs
  subst hs
  have hex : (s.accounts.any fun a => a.name == act.name) = false := by
    cases hb : exists_account s act.name with
    | false => exact hb
    | true => rw [hb] at h3; exact Bool.noConfusion h3
  rw [read_account, add_account_accounts,
    find?_append_of_none _ _ _ (find?_eq_none_of_any_false _ _ hex)]
  simp [List.find?]

/-- A fresh ledger and a `newaccount` action for `"n"` owned by key `5`. -/
def c8ctx : ApplyContext :=
  { auth := fun _ _ => true, fromGroupKey := fun k => k, head_block_time := 0 }

def c8state : LedgerState :=
  { domains := [], groups := [], tokens := [], accounts := [], log := [] }

def c8act : newaccount := { name := "n", owner := [5] }

/-- C8 witness: the concrete `newaccount` run reads back the expected
record. -/
theorem newaccount_roundtrip_witness :
    read_account (apply_evt_newaccount c8ctx c8act c8state).2 c8act.name =
      { name := c8act.name, creator := system_account_name, balance := 10000,
        frozen_balance := 0, owner := c8act.owner } :=
  newaccount_roundtrip c8ctx c8act c8state
    (apply_evt_newaccount c8ctx c8act c8state).2 rfl

/-- C9: a successful `newdomain` appends to the store's write log the
new domain record followed by one `add_group` per inline group — the
domain is written before any group, and every inline group (referenced
by a permission or not) is persisted as a standalone group record. -/
theorem newdomain_persists_groups (ctx : ApplyContext) (act : newdomain)
    (s s' : LedgerState) (h : apply_evt_newdomain ctx act s = (some (), s')) :
    s'.log = s.log ++
      WriteOp.addDomain
          { name := act.name, issuer := act.issuer,
            issue_time := ctx.head_block_time, issue := act.issue,
            transfer := act.transfer, manage := act.manage } ::
        act.groups.map WriteOp.addGroup ∧
    ∀ g ∈ act.groups, g ∈ s'.groups := by
  rw [apply_evt_newdomain] at h
  obtain ⟨g1, h⟩ := evtAssert_some h
  obtain ⟨g2, h⟩ := evtAssert_some h
  obtain ⟨g3, h⟩ := evtAssert_some h
  obtain ⟨g4, h⟩ := evtAssert_some h
  obtain ⟨g5, h⟩ := evtAssert_some h
  obtain ⟨g6, h⟩ := evtAssert_some h
  obtain ⟨g7, h⟩ := evtAssert_some h
  obtain ⟨g8, h⟩ := evtAssert_some h
  obtain ⟨g9, h⟩ := evtAssert_some h
  obtain ⟨g10, h⟩ := evtAssert_some h
  obtain ⟨g11, h⟩ := evtAssert_some h
  obtain ⟨g12, h⟩ := evtAssert_some h
  obtain ⟨g13, h⟩ := evtAssert_some h
  injection h with hu hs
  subst hs
  rw [foldl_add_group_spec]
  refine ⟨?_, ?_⟩
  · simp [add_domain, List.append_assoc]
  · intro g hg
    simp [add_domain]
    exact Or.inr hg

/-- A fresh ledger and a `newdomain` action carrying two inline groups,
only the first of which is referenced by a permission. -/
def c9ctx : ApplyContext :=
  { auth := fun _ _ => true, fromGroupKey := fun k => k, head_block_time := 42 }

def c9act : newdomain :=
  { name := "d9", issuer := 9,
    issue := { name := "issue", threshold := 1, groups := [{ id := 7, weight := 1 }] },
    transfer := { name := "transfer", threshold := 1, groups := [{ id := 0, weight := 1 }] },
    manage := { name := "manage", threshold := 0, groups := [] },
    groups :=
      [{ id := 7, key := 7, threshold := 1, keys := [{ key := 3, weight := 1 }] },
       { id := 8, key := 8, threshold := 1, keys := [{ key := 4, weight := 2 }] }] }

def c9state : LedgerState :=
  { domains := [], groups := [], tokens := [], accounts := [], log := [] }

/-- C9 witness: the concrete successful `newdomain` run logs the domain
first and persists both inline groups, including the unreferenced one. -/
theorem newdomain_persists_groups_witness :
    (apply_evt_newdomain c9ctx c9act c9state).2.log = c9state.log ++
      WriteOp.addDomain
          { name := c9act.name, issuer := c9act.issuer,
            issue_time := c9ctx.head_block_time, issue := c9act.issue,
            transfer := c9act.transfer, manage := c9act.manage } ::
        c9act.groups.map WriteOp.addGroup ∧
    ∀ g ∈ c9act.groups, g ∈ (apply_evt_newdomain c9ctx c9act c9state).2.groups :=
  newdomain_persists_groups c9ctx c9act c9state
    (apply_evt_newdomain c9ctx c9act c9state).2 rfl

/-- C10: an authorized `issuetoken` on an existing domain with a
non-empty owner and an empty name list succeeds — the collision check is
vacuous — and hands the store an empty batch, creating no token
records. -/
theorem issuetoken_empty_names (ctx : ApplyContext) (act : issuetoken)
    (s : LedgerState) (h1 : act.names = [])
    (h2 : ctx.auth act.domain ("issue") = true)
    (h3 : exists_domain s act.domain = true)
    (h4 : act.owner.isEmpty = false) :
    (apply_evt_issuetoken ctx act s).1 = some () ∧
    (apply_evt_issuetoken ctx act s).2.tokens = s.tokens ∧
    (apply_evt_issuetoken ctx act s).2.log =
      s.log ++ [WriteOp.issueTokens act] := by
  have hall : (act.names.all fun n => !exists_token s act.domain n) = true := by
    rw [h1]; rfl
  rw [apply_evt_issuetoken, h2, h3, h4, hall]
  simp [evtAssert, issue_tokens, h1]

/-- A ledger holding domain `"d"`, and an `issuetoken` action on `"d"`
with an empty name list. -/
def c10ctx : ApplyContext :=
  { auth := fun _ _ => true, fromGroupKey := fun k => k, head_block_time := 0 }

def c10perm : permission_def := { name := "x", threshold := 0, groups := [] }

def c10state : LedgerState :=
  { domains := [{ name := "d", issuer := 0, issue_time := 0, issue := c10perm,
                  transfer := c10perm, manage := c10perm }],
    groups := [], tokens := [], accounts := [], log := [] }

def c10act : issuetoken := { domain := "d", names := [], owner := [6] }

/-- C10 witness: the concrete empty-batch `issuetoken` run succeeds and
creates no token. -/
theorem issuetoken_empty_names_witness :
    (apply_evt_issuetoken c10ctx c10act c10state).1 = some () ∧
    (apply_evt_issuetoken c10ctx c10act c10state).2.tokens = c10state.tokens ∧
    (apply_evt_issuetoken c10ctx c10act c10state).2.log =
      c10state.log ++ [WriteOp.issueTokens c10act] :=
  issuetoken_empty_names c10ctx c10act c10state rfl rfl rfl rfl

end Evt
